import Mathlib

/-!
Shallow embedding of the PINN energy-consumption pipeline
(`pinn_ec(18_11).py`): min-max scaling, train/validation splitting,
the physics-residual and combined losses, and the epoch/batch training
loop.  Real-valued tensors are modelled over `ℚ` (exact arithmetic; the
floating-point tolerances of the spec are subsumed by exact equality).
-/

/-- Mean of a list of rationals, `torch.mean` on a 1-d tensor.
(On the empty list this yields `0` by `ℚ`-division; every call site in
the pipeline passes a nonempty batch.) -/
def qmean (l : List ℚ) : ℚ := l.sum / l.length

/-- One row of the feature matrix `X`.  Field order is the column order
of the `features` list in the source:
`["Average Outflow", "Average Inflow", "Ammonia", "Biological Oxygen Demand",
"Chemical Oxygen Demand", "Total Nitrogen", "Average Temperature",
"Average humidity", "Total rainfall"]`. -/
structure Sample where
  averageOutflow : ℚ
  averageInflow : ℚ
  ammonia : ℚ
  bod : ℚ
  cod : ℚ
  totalNitrogen : ℚ
  averageTemperature : ℚ
  averageHumidity : ℚ
  totalRainfall : ℚ
deriving DecidableEq, Repr

/-- The all-zero sample (used as the out-of-range default when indexing
a row list). -/
def Sample.zero : Sample := ⟨0, 0, 0, 0, 0, 0, 0, 0, 0⟩

instance : Inhabited Sample := ⟨Sample.zero⟩

/-- Per-sample residual of `physics_loss`.  The source unpacks the nine
channels positionally:
`Q_in, Q_out, ammonia, BOD, COD, total_nitrogen, T_avg, RH, rainfall = torch.split(inputs, 1, dim=1)`,
so the local `Q_in` is channel 0 (the "Average Outflow" column) and
`Q_out` is channel 1 (the "Average Inflow" column). -/
def physicsResidual (alpha beta gamma tRef : ℚ) (s : Sample) (out : ℚ) : ℚ :=
  let qIn := s.averageOutflow
  let qOut := s.averageInflow
  let deltaDO := s.cod + s.bod - s.ammonia
  out - (alpha * qIn * deltaDO + beta * qOut + gamma * (s.averageTemperature - tRef))

/-- `physics_loss(inputs, outputs, alpha, beta, gamma, T_ref)` from the
source: mean over the batch of the squared residual. -/
def physics_loss (alpha beta gamma tRef : ℚ) (inputs : List Sample) (outputs : List ℚ) : ℚ :=
  qmean (List.zipWith (fun s o => (physicsResidual alpha beta gamma tRef s o) ^ 2) inputs outputs)

/-- `combined_loss(model, inputs, targets, alpha, beta, gamma, T_ref)`
from the source.  The model is a parameter of the function, exactly as
in the source; `model(inputs)` is the per-sample map. -/
def combined_loss (model : Sample → ℚ) (inputs : List Sample) (targets : List ℚ)
    (alpha beta gamma tRef : ℚ) : ℚ :=
  let outputs := inputs.map model
  let mseLoss := qmean (List.zipWith (fun t o => (t - o) ^ 2) targets outputs)
  let physLoss := physics_loss alpha beta gamma tRef inputs outputs
  mseLoss + physLoss

/-- The "expected" energy of claim C1, written from the spec's words:
`alpha·Q_in·(COD + BOD − ammonia) + beta·Q_out + gamma·(T_avg − T_ref)`
with `Q_in` the *inflow* channel and `Q_out` the *outflow* channel of
the ordered 9-tuple.  (Spec-side definition, for comparison with the
code's `physics_loss` above, which binds `Q_in` to the outflow column.) -/
def claimExpected (alpha beta gamma tRef : ℚ) (s : Sample) : ℚ :=
  alpha * s.averageInflow * (s.cod + s.bod - s.ammonia)
    + beta * s.averageOutflow + gamma * (s.averageTemperature - tRef)

/-! ## Scaler: sklearn `MinMaxScaler` with default `feature_range = (0, 1)` -/

/-- Fitted per-column state of `MinMaxScaler`: the observed data min and
max of the column. -/
structure ScalerState where
  dataMin : ℚ
  dataMax : ℚ
deriving DecidableEq, Repr

namespace MinMaxScaler

/-- sklearn's `_handle_zeros_in_scale`: a zero data range is replaced by
1 so that a constant column is transformed without error. -/
def handleZeros (d : ℚ) : ℚ := if d = 0 then 1 else d

/-- `MinMaxScaler.fit` on one column: records the column min and max.
Fails only on an empty column (as sklearn does on an empty array); a
constant column fits successfully. -/
def fit : List ℚ → Option ScalerState
  | [] => none
  | x :: xs => some ⟨xs.foldl min x, xs.foldl max x⟩

/-- `MinMaxScaler.transform` of one value: with `feature_range (0,1)`,
`X_scaled = (x − data_min) / handleZeros (data_max − data_min)`. -/
def transform (st : ScalerState) (x : ℚ) : ℚ :=
  (x - st.dataMin) / handleZeros (st.dataMax - st.dataMin)

/-- `MinMaxScaler.inverse_transform` of one value: the algebraic inverse
`y * handleZeros (data_max − data_min) + data_min`. -/
def inverse_transform (st : ScalerState) (y : ℚ) : ℚ :=
  y * handleZeros (st.dataMax - st.dataMin) + st.dataMin

end MinMaxScaler

/-! ## Splitter: `train_test_split(X, y, test_size=0.25, random_state=seed)` -/

/-- sklearn `_validate_shuffle_split` with `test_size` a float:
`n_test = ceil(test_size * n_samples)`, here with `test_size = 0.25`. -/
def nTestOf (n : Nat) : Nat := ⌈(1/4 : ℚ) * n⌉₊

/-- One step of a 64-bit linear congruential generator (Knuth's MMIX
constants).  Deterministic stand-in for the seeded numpy bit stream. -/
def lcgNext (s : Nat) : Nat := (6364136223846793005 * s + 1442695040888963407) % 2 ^ 64

/-- Fisher–Yates draw: repeatedly removes the element at the generator's
next index from the remaining pool (`fuel` bounds the recursion; it is
always called with `fuel = l.length`).  Together with `lcgNext` this
models `numpy.random.RandomState(seed).permutation(n)` — a pseudo-random
permutation that is a pure function of the seed; every property proved
below depends only on the result being such a permutation. -/
def drawFrom : Nat → Nat → List Nat → List Nat
  | 0, _, _ => []
  | _, _, [] => []
  | fuel + 1, s, x :: xs =>
    let l := x :: xs
    let i := s % l.length
    l.getD i 0 :: drawFrom fuel (lcgNext s) (l.eraseIdx i)

/-- The seeded permutation of the index range `[0, n)` used by the
splitter (model of `RandomState(seed).permutation(n)`). -/
def permuteIndices (seed n : Nat) : List Nat := drawFrom n (lcgNext seed) (List.range n)

/-- Index-level `train_test_split` with `test_size = 0.25`: shuffle the
index range with the seeded permutation, take the first `n_test` indices
as the validation (test) set and the rest as the training set
(`ind_test = permutation[:n_test]`, `ind_train = permutation[n_test:]`).
Raises (as sklearn does) when the resulting training set would be
empty.  Returns `(trainIdx, testIdx)`. -/
def splitIndices (seed n : Nat) : Except String (List Nat × List Nat) :=
  let nTest := nTestOf n
  let nTrain := n - nTest
  if nTrain = 0 then
    .error "the resulting train set will be empty"
  else
    let perm := permuteIndices seed n
    .ok (perm.drop nTest, perm.take nTest)

/-- `train_test_split(X_scaled, y_scaled, test_size=0.25, random_state=seed)`:
applies the index split to the rows of `X` and `y`, returning
`(X_train, X_val, y_train, y_val)`. -/
def train_test_split (seed : Nat) (X : List Sample) (y : List ℚ) :
    Except String (List Sample × List Sample × List ℚ × List ℚ) := do
  let (trainIdx, testIdx) ← splitIndices seed X.length
  pure (trainIdx.map (fun i => X.getD i Sample.zero),
        testIdx.map (fun i => X.getD i Sample.zero),
        trainIdx.map (fun i => y.getD i 0),
        testIdx.map (fun i => y.getD i 0))

/-! ## Trainer: the epoch / mini-batch loop -/

/-- `torch.utils.data.DataLoader(data, batch_size=bs)`: consecutive
chunks of size `bs`, the final chunk possibly shorter. -/
def batched (bs : Nat) : List α → List (List α)
  | [] => []
  | x :: xs =>
    if _h : bs = 0 then []
    else (x :: xs).take bs :: batched bs ((x :: xs).drop bs)
termination_by l => l.length
decreasing_by
  have : ((x :: xs).drop bs).length = (x :: xs).length - bs := List.length_drop bs _
  simp only [List.length_cons] at this ⊢
  omega

/-- Mutable state threaded through the training loop: the model (and
optimizer) parameters and the two loss-history lists. -/
structure TrainState (P : Type) where
  params : P
  train_losses : List ℚ
  val_losses : List ℚ

/-- The training run's fixed ingredients.  The network forward pass
`net` and the backward/`optimizer.step()` update `optStep` are
parameters of the embedding (their concrete values in the source are
the `PINN` module and Adam); `shuffles e` is the order in which
`DataLoader(..., shuffle=True)` presents the training pairs in epoch
`e`; `valData` is the validation pairs (`shuffle=False`: fixed order). -/
structure TrainerCfg (P : Type) where
  net : P → Sample → ℚ
  optStep : P → List (Sample × ℚ) → P
  alpha : ℚ
  beta : ℚ
  gamma : ℚ
  tRef : ℚ
  batchSize : Nat
  shuffles : Nat → List (Sample × ℚ)
  valData : List (Sample × ℚ)
  p0 : P

/-- The combined loss of one batch of `(x, y)` pairs at parameters `p`. -/
def batchLossAt (cfg : TrainerCfg P) (p : P) (b : List (Sample × ℚ)) : ℚ :=
  combined_loss (cfg.net p) (b.map Prod.fst) (b.map Prod.snd)
    cfg.alpha cfg.beta cfg.gamma cfg.tRef

/-- The per-batch loss values produced while folding over the batches:
each batch's loss is computed at the parameters current when the batch
is processed (the loss is evaluated before `optimizer.step()` updates
them for the next batch). -/
def lossesAlong (cfg : TrainerCfg P) : P → List (List (Sample × ℚ)) → List ℚ
  | _, [] => []
  | p, b :: bs => batchLossAt cfg p b :: lossesAlong cfg (cfg.optStep p b) bs

/-- Parameters after folding `optimizer.step()` over the batches. -/
def paramsAfter (cfg : TrainerCfg P) : P → List (List (Sample × ℚ)) → P
  | p, [] => p
  | p, b :: bs => paramsAfter cfg (cfg.optStep p b) bs

/-- The body of the inner training loop: for each batch, compute the
combined loss at the current parameters, step the optimizer
(`loss.backward(); optimizer.step()`), and add `loss.item()` to the
running `train_loss` accumulator. -/
def trainFold (cfg : TrainerCfg P) : (P × ℚ) → List (List (Sample × ℚ)) → (P × ℚ)
  | acc, [] => acc
  | (p, tl), b :: bs => trainFold cfg (cfg.optStep p b, tl + batchLossAt cfg p b) bs

/-- The training phase of epoch `e`: fold over the shuffled batches,
accumulating `loss.item()` and stepping the optimizer, then append
`train_loss / len(train_loader)` to `train_losses`. -/
def trainPhase (cfg : TrainerCfg P) (e : Nat) (st : TrainState P) : TrainState P :=
  let B := batched cfg.batchSize (cfg.shuffles e)
  let acc := trainFold cfg (st.params, 0) B
  { params := acc.1
    train_losses := st.train_losses ++ [acc.2 / B.length]
    val_losses := st.val_losses }

/-- The validation phase: under `torch.no_grad()`, sum the combined loss
over the validation batches in their fixed order and append
`val_loss / len(val_loader)` to `val_losses`; the parameters are not
touched. -/
def valPhase (cfg : TrainerCfg P) (st : TrainState P) : TrainState P :=
  let B := batched cfg.batchSize cfg.valData
  { params := st.params
    train_losses := st.train_losses
    val_losses := st.val_losses ++ [(B.map (batchLossAt cfg st.params)).sum / B.length] }

/-- One iteration of `for epoch in range(epochs)`: the training phase
followed by the validation phase. -/
def epochStep (cfg : TrainerCfg P) (e : Nat) (st : TrainState P) : TrainState P :=
  valPhase cfg (trainPhase cfg e st)

/-- The whole training loop, run for `epochs` epochs from the freshly
initialized model and empty loss histories. -/
def trainLoop (cfg : TrainerCfg P) : Nat → TrainState P
  | 0 => { params := cfg.p0, train_losses := [], val_losses := [] }
  | e + 1 => epochStep cfg e (trainLoop cfg e)

/-- Decidable equality for `Except` results (for concrete evaluation of
the splitter). -/
instance {ε α : Type} [DecidableEq ε] [DecidableEq α] : DecidableEq (Except ε α) := fun a b =>
  match a, b with
  | .ok x, .ok y =>
    if h : x = y then .isTrue (by rw [h]) else .isFalse (by intro hh; cases hh; exact h rfl)
  | .ok _, .error _ => .isFalse (by intro hh; cases hh)
  | .error _, .ok _ => .isFalse (by intro hh; cases hh)
  | .error e, .error f =>
    if h : e = f then .isTrue (by rw [h]) else .isFalse (by intro hh; cases hh; exact h rfl)

/-- A concrete sample for the physics-loss evaluation: outflow 1,
inflow 0, COD 1, average temperature 15 (= `T_ref`), all else 0. -/
def s0 : Sample := ⟨1, 0, 0, 0, 1, 0, 15, 0, 0⟩

/-- A concrete training configuration: constant-zero network, inert
optimizer, zero physics coefficients, batch size 2 over three samples
with targets `1, 1, 4` (so the two batches have combined losses `1` and
`16`). -/
def cfgC : TrainerCfg Unit :=
  { net := fun _ _ => 0
    optStep := fun _ _ => ()
    alpha := 0
    beta := 0
    gamma := 0
    tRef := 0
    batchSize := 2
    shuffles := fun _ => [(Sample.zero, 1), (Sample.zero, 1), (Sample.zero, 4)]
    valData := [(Sample.zero, 1)]
    p0 := () }

/-- The fresh training state (empty histories). -/
def st0 : TrainState Unit := ⟨(), [], []⟩

/-- A training configuration whose optimizer step squares the scalar
parameter each batch, so the recorded losses blow up without bound —
the embedded image of a numerically diverging run. -/
def cfgDiv : TrainerCfg ℚ :=
  { net := fun p _ => p
    optStep := fun p _ => p * p
    alpha := 0
    beta := 0
    gamma := 0
    tRef := 0
    batchSize := 1
    shuffles := fun _ => [(Sample.zero, 0)]
    valData := [(Sample.zero, 0)]
    p0 := 2 }

/-! ## Helper lemmas -/

/-- `n_test = ⌈0.25·n⌉` computed in `ℕ`: it equals `(n + 3) / 4`. -/
theorem nTestOf_eq (n : Nat) : nTestOf n = (n + 3) / 4 := by
  unfold nTestOf
  rcases Nat.eq_zero_or_pos n with h0 | hpos
  · subst h0; norm_num
  · have hdm := Nat.div_add_mod (n + 3) 4
    have hml : (n + 3) % 4 < 4 := Nat.mod_lt _ (by norm_num)
    set k := (n + 3) / 4 with hkdef
    have hk1 : 1 ≤ k := by omega
    rw [show ((1:ℚ)/4) * n = (n : ℚ) / 4 by ring]
    rw [Nat.ceil_eq_iff (by omega)]
    constructor
    · rw [Nat.cast_sub hk1, Nat.cast_one, lt_div_iff₀ (by norm_num : (0:ℚ) < 4)]
      have hq : (k : ℚ) * 4 < (n : ℚ) + 4 := by exact_mod_cast (by omega : k * 4 < n + 4)
      linarith
    · rw [div_le_iff₀ (by norm_num : (0:ℚ) < 4)]
      exact_mod_cast (by omega : n ≤ k * 4)

/-- Moving the element at index `i` to the front is a permutation. -/
theorem cons_getD_eraseIdx_perm :
    ∀ (l : List Nat) (i : Nat), i < l.length → List.Perm (l.getD i 0 :: l.eraseIdx i) l
  | [], i, h => by simp at h
  | x :: xs, 0, _ => by simp
  | x :: xs, i + 1, h => by
    have hi : i < xs.length := by simpa using Nat.lt_of_succ_lt_succ h
    have ih := cons_getD_eraseIdx_perm xs i hi
    simp only [List.getD_cons_succ, List.eraseIdx_cons_succ]
    exact (List.Perm.swap x (xs.getD i 0) (xs.eraseIdx i)).trans (ih.cons x)

/-- With enough fuel, the Fisher–Yates draw permutes its pool. -/
theorem drawFrom_perm :
    ∀ (fuel s : Nat) (l : List Nat), l.length ≤ fuel → List.Perm (drawFrom fuel s l) l
  | 0, _, l, h => by
    have : l = [] := List.length_eq_zero.mp (Nat.le_zero.mp h)
    subst this
    simp [drawFrom]
  | _ + 1, _, [], _ => by simp [drawFrom]
  | fuel + 1, s, x :: xs, h => by
    rw [drawFrom]
    have hlt : s % (x :: xs).length < (x :: xs).length :=
      Nat.mod_lt _ (by simp [Nat.succ_pos])
    have herase := List.length_eraseIdx (s % (x :: xs).length) (l := x :: xs)
    rw [if_pos hlt] at herase
    have ih := drawFrom_perm fuel (lcgNext s) ((x :: xs).eraseIdx (s % (x :: xs).length))
      (by simp only [herase, List.length_cons] at *; omega)
    exact (ih.cons _).trans (cons_getD_eraseIdx_perm _ _ hlt)

/-- The seeded index shuffle is a permutation of `[0, n)`. -/
theorem permuteIndices_perm (seed n : Nat) :
    List.Perm (permuteIndices seed n) (List.range n) :=
  drawFrom_perm n (lcgNext seed) (List.range n) (by simp)

/-- Pointwise-nonnegative `zipWith` values are nonnegative. -/
theorem zipWith_nonneg_mem {α β : Type} {f : α → β → ℚ} (hf : ∀ a b, 0 ≤ f a b) :
    ∀ (l1 : List α) (l2 : List β), ∀ x ∈ List.zipWith f l1 l2, 0 ≤ x
  | [], _, x, hx => by simp at hx
  | _ :: _, [], x, hx => by simp at hx
  | a :: as, b :: bs, x, hx => by
    simp only [List.zipWith_cons_cons, List.mem_cons] at hx
    rcases hx with rfl | hx
    · exact hf a b
    · exact zipWith_nonneg_mem hf as bs x hx

/-- The mean of a list of nonnegative rationals is nonnegative. -/
theorem qmean_nonneg {l : List ℚ} (h : ∀ x ∈ l, 0 ≤ x) : 0 ≤ qmean l :=
  div_nonneg (List.sum_nonneg h) (Nat.cast_nonneg _)

/-- `len(DataLoader)` : the number of batches is `⌈|l| / bs⌉`. -/
theorem batched_length {α : Type} (bs : Nat) (hbs : 0 < bs) (l : List α) :
    (batched bs l).length = (l.length + bs - 1) / bs := by
  suffices H : ∀ (n : Nat) (l : List α), l.length = n →
      (batched bs l).length = (l.length + bs - 1) / bs from H l.length l rfl
  intro n
  induction n using Nat.strong_induction_on with
  | _ n ih =>
  intro l hn
  cases l with
  | nil => simp [batched, Nat.div_eq_of_lt (by omega : bs - 1 < bs)]
  | cons x xs =>
    rw [batched, dif_neg (by omega : ¬ bs = 0)]
    have hdrop : ((x :: xs).drop bs).length = xs.length + 1 - bs := by
      simp [List.length_drop]
    have ihd := ih ((x :: xs).drop bs).length
      (by rw [hdrop]; simp only [List.length_cons] at hn; omega) ((x :: xs).drop bs) rfl
    simp only [List.length_cons, ihd, hdrop]
    rcases le_or_lt (xs.length + 1) bs with hle | hlt
    · rw [show xs.length + 1 - bs = 0 by omega]
      rw [Nat.div_eq_of_lt (by omega : 0 + bs - 1 < bs)]
      rw [show xs.length + 1 + bs - 1 = xs.length + bs by omega, Nat.add_div_right _ hbs]
      rw [Nat.div_eq_of_lt (by omega : xs.length < bs)]
    · rw [show xs.length + 1 - bs + bs - 1 = xs.length by omega,
          show xs.length + 1 + bs - 1 = xs.length + bs by omega,
          Nat.add_div_right _ hbs]

/-- The parameter component of the training fold is the iterated
optimizer step. -/
theorem trainFold_fst {P : Type} (cfg : TrainerCfg P) :
    ∀ (bs : List (List (Sample × ℚ))) (p : P) (tl : ℚ),
      (trainFold cfg (p, tl) bs).1 = paramsAfter cfg p bs
  | [], _, _ => rfl
  | b :: bs, p, tl => trainFold_fst cfg bs (cfg.optStep p b) (tl + batchLossAt cfg p b)

/-- The accumulator of the training fold is the sum of the per-batch
combined losses, each taken at the parameters current when its batch
was processed. -/
theorem trainFold_snd {P : Type} (cfg : TrainerCfg P) :
    ∀ (bs : List (List (Sample × ℚ))) (p : P) (tl : ℚ),
      (trainFold cfg (p, tl) bs).2 = tl + (lossesAlong cfg p bs).sum
  | [], _, _ => by simp [trainFold, lossesAlong]
  | b :: bs, p, tl => by
    rw [trainFold, trainFold_snd cfg bs (cfg.optStep p b) (tl + batchLossAt cfg p b)]
    simp [lossesAlong]
    ring

/-- One epoch appends exactly the batch-averaged training loss to
`train_losses` (and `valPhase` does not touch it). -/
theorem epochStep_train_losses {P : Type} (cfg : TrainerCfg P) (e : Nat) (st : TrainState P) :
    (epochStep cfg e st).train_losses = st.train_losses ++
      [(lossesAlong cfg st.params (batched cfg.batchSize (cfg.shuffles e))).sum /
        ((batched cfg.batchSize (cfg.shuffles e)).length : ℚ)] := by
  show st.train_losses ++ [(trainFold cfg (st.params, 0) _).2 / _] = _
  rw [trainFold_snd, zero_add]

/-- One epoch appends exactly the batch-averaged validation loss, taken
at the parameters produced by the epoch's training phase. -/
theorem epochStep_val_losses {P : Type} (cfg : TrainerCfg P) (e : Nat) (st : TrainState P) :
    (epochStep cfg e st).val_losses = st.val_losses ++
      [((batched cfg.batchSize cfg.valData).map
          (batchLossAt cfg (paramsAfter cfg st.params (batched cfg.batchSize (cfg.shuffles e))))).sum /
        ((batched cfg.batchSize cfg.valData).length : ℚ)] := by
  show st.val_losses ++ [((batched cfg.batchSize cfg.valData).map
      (batchLossAt cfg (trainFold cfg (st.params, 0) _).1)).sum / _] = _
  rw [trainFold_fst]

/-! ## The claims -/

/-- **C1.** The claim reads the physics term as
`alpha·Q_in·(COD+BOD−ammonia) + beta·Q_out + γ·(T_avg − T_ref)` with
`Q_in` the inflow channel and `Q_out` the outflow channel.  The code
binds `Q_in` to channel 0, which is the *outflow* column.  At the sample
`s0` (outflow 1, inflow 0, COD 1, `T_avg = T_ref`), a prediction equal
to the claim's expected value (`beta = 1/200`) leaves a nonzero
residual loss of `1/40000`, while a prediction using the outflow column
in the `alpha` term gives residual loss `0`. -/
theorem C1_physics_loss_swapped_channels :
    physics_loss (1/100) (1/200) (1/500) 15 [s0]
        [claimExpected (1/100) (1/200) (1/500) 15 s0] = 1/40000 ∧
    (1/40000 : ℚ) ≠ 0 ∧
    physics_loss (1/100) (1/200) (1/500) 15 [s0]
        [(1/100) * s0.averageOutflow * (s0.cod + s0.bod - s0.ammonia)
          + (1/200) * s0.averageInflow + (1/500) * (s0.averageTemperature - 15)] = 0 := by
  refine ⟨?_, by norm_num, ?_⟩ <;>
    norm_num [physics_loss, qmean, physicsResidual, claimExpected, s0, List.zipWith]

/-- **C2.** Fitting the scaler on a zero-variance column does *not*
fail: `MinMaxScaler` records `(min, max) = (5, 5)` and (via
`_handle_zeros_in_scale`) silently transforms the constant column to
`0`.  There is no `DegenerateColumnError` in the code. -/
theorem C2_constant_column_fits_silently :
    MinMaxScaler.fit [5, 5, 5] = some ⟨5, 5⟩ ∧
    MinMaxScaler.transform ⟨5, 5⟩ 5 = 0 := by
  constructor
  · norm_num [MinMaxScaler.fit]
  · norm_num [MinMaxScaler.transform, MinMaxScaler.handleZeros]

/-- **C5.** Round trip: for a fitted column whose min is strictly below
its max, `inverse_transform (transform x) = x` exactly (hence within
any floating-point tolerance) for every `x` in the fitted range. -/
theorem C5_scaler_roundtrip (col : List ℚ) (st : ScalerState) (x : ℚ)
    (hfit : MinMaxScaler.fit col = some st)
    (hlt : st.dataMin < st.dataMax)
    (hx1 : st.dataMin ≤ x) (hx2 : x ≤ st.dataMax) :
    MinMaxScaler.inverse_transform st (MinMaxScaler.transform st x) = x := by
  have hne : st.dataMax - st.dataMin ≠ 0 := sub_ne_zero.mpr (ne_of_gt hlt)
  unfold MinMaxScaler.inverse_transform MinMaxScaler.transform MinMaxScaler.handleZeros
  rw [if_neg hne, div_mul_cancel₀ _ hne]
  ring

/-- Witness for C5: the column `[1, 3]` fits to `(min, max) = (1, 3)`
and the value `2` round-trips. -/
theorem C5_scaler_roundtrip_witness :
    MinMaxScaler.inverse_transform ⟨1, 3⟩ (MinMaxScaler.transform ⟨1, 3⟩ 2) = 2 :=
  C5_scaler_roundtrip [1, 3] ⟨1, 3⟩ 2 (by norm_num [MinMaxScaler.fit])
    (by norm_num) (by norm_num) (by norm_num)

/-- **C6.** The combined loss is the data-fit MSE plus the physics
residual loss on the same inputs and predictions, and it is a
nonnegative scalar for every nonempty batch, every target list and
every model. -/
theorem C6_combined_loss_nonneg (model : Sample → ℚ) (inputs : List Sample)
    (targets : List ℚ) (alpha beta gamma tRef : ℚ) (h : inputs ≠ []) :
    combined_loss model inputs targets alpha beta gamma tRef
      = qmean (List.zipWith (fun t o => (t - o) ^ 2) targets (inputs.map model))
        + physics_loss alpha beta gamma tRef inputs (inputs.map model) ∧
    0 ≤ combined_loss model inputs targets alpha beta gamma tRef := by
  refine ⟨rfl, ?_⟩
  unfold combined_loss physics_loss
  have h1 : 0 ≤ qmean (List.zipWith (fun t o => (t - o) ^ 2) targets (inputs.map model)) :=
    qmean_nonneg (zipWith_nonneg_mem (fun a b => sq_nonneg (a - b)) _ _)
  have h2 : 0 ≤ qmean (List.zipWith
      (fun s o => (physicsResidual alpha beta gamma tRef s o) ^ 2) inputs (inputs.map model)) :=
    qmean_nonneg (zipWith_nonneg_mem (fun a b => sq_nonneg _) _ _)
  exact add_nonneg h1 h2

/-- Witness for C6 at a concrete nonempty batch. -/
theorem C6_combined_loss_nonneg_witness :
    0 ≤ combined_loss (fun _ => 1) [s0] [1] (1/100) (1/200) (1/500) 15 :=
  (C6_combined_loss_nonneg (fun _ => 1) [s0] [1] (1/100) (1/200) (1/500) 15
    (by simp)).2

/-- **C4 (counterexample).** With `N = 5` and `f = 0.25` the claim asks
for a training set of `⌈5·0.75⌉ = 4` indices, but the splitter (like
sklearn: `n_test = ⌈f·N⌉ = 2`, `n_train = N − n_test = 3`) produces a
training set of 3 indices. -/
theorem C4_split_sizes_counterexample :
    splitIndices 42 5 = .ok ([4, 1, 2], [3, 0]) ∧
    ¬ (([4, 1, 2] : List Nat).length = ⌈(5 : ℚ) * (1 - 1/4)⌉₊) := by
  constructor
  · simp only [splitIndices, nTestOf_eq]
    decide
  · intro hcontr
    have h4 : ⌈(5 : ℚ) * (1 - 1/4)⌉₊ = 4 := by
      rw [Nat.ceil_eq_iff (by norm_num)]
      norm_num
    rw [h4] at hcontr
    simp at hcontr

/-- **C4 (amended).** Whenever the splitter succeeds, it partitions the
index set `[0, N)` into a training set of exactly `N − ⌈N·f⌉`
(= `⌊N·(1−f)⌋`) indices and a validation set of the remaining `⌈N·f⌉`
indices; the two sets are disjoint, their sizes sum to `N`, and their
union is exactly the index range. -/
theorem C4_split_partition (seed n : Nat) (tr te : List Nat)
    (h : splitIndices seed n = .ok (tr, te)) :
    tr.length = n - nTestOf n ∧ te.length = nTestOf n ∧
    tr.length + te.length = n ∧
    (∀ i, i ∈ tr → i ∉ te) ∧
    (∀ i, (i ∈ tr ∨ i ∈ te) ↔ i < n) := by
  have hperm := permuteIndices_perm seed n
  have hlen : (permuteIndices seed n).length = n :=
    hperm.length_eq.trans (List.length_range n)
  have hnod : (permuteIndices seed n).Nodup :=
    hperm.nodup_iff.mpr (List.nodup_range n)
  simp only [splitIndices] at h
  split at h
  · cases h
  · rename_i hc
    have hk : nTestOf n < n := by omega
    injection h with h2
    have htr : tr = (permuteIndices seed n).drop (nTestOf n) := by
      have := congrArg Prod.fst h2
      simpa using this.symm
    have hte : te = (permuteIndices seed n).take (nTestOf n) := by
      have := congrArg Prod.snd h2
      simpa using this.symm
    subst htr
    subst hte
    have hsplit := List.take_append_drop (nTestOf n) (permuteIndices seed n)
    have hnodapp : ((permuteIndices seed n).take (nTestOf n) ++
        (permuteIndices seed n).drop (nTestOf n)).Nodup := by
      rw [hsplit]; exact hnod
    have hdisj := (List.nodup_append.mp hnodapp).2.2
    refine ⟨?_, ?_, ?_, ?_, ?_⟩
    · rw [List.length_drop, hlen]
    · rw [List.length_take, hlen, Nat.min_eq_left (le_of_lt hk)]
    · rw [List.length_drop, List.length_take, hlen, Nat.min_eq_left (le_of_lt hk)]
      omega
    · intro i hitr hite
      exact hdisj hite hitr
    · intro i
      have hmem : i ∈ permuteIndices seed n ↔ i < n := by
        rw [hperm.mem_iff, List.mem_range]
      constructor
      · rintro (hi | hi)
        · exact hmem.mp (List.mem_of_mem_drop hi)
        · exact hmem.mp (List.mem_of_mem_take hi)
      · intro hi
        have hin : i ∈ (permuteIndices seed n).take (nTestOf n) ++
            (permuteIndices seed n).drop (nTestOf n) := by
          rw [hsplit]
          exact hmem.mpr hi
        rcases List.mem_append.mp hin with h1 | h2
        · exact Or.inr h1
        · exact Or.inl h2

/-- Witness for C4 (amended) at `seed 42`, `N = 5`. -/
theorem C4_split_partition_witness :
    ([4, 1, 2] : List Nat).length + ([3, 0] : List Nat).length = 5 ∧
    (∀ i, i ∈ ([4, 1, 2] : List Nat) → i ∉ ([3, 0] : List Nat)) :=
  ⟨(C4_split_partition 42 5 [4, 1, 2] [3, 0]
      (by simp only [splitIndices, nTestOf_eq]; decide)).2.2.1,
   (C4_split_partition 42 5 [4, 1, 2] [3, 0]
      (by simp only [splitIndices, nTestOf_eq]; decide)).2.2.2.1⟩

/-- **C7.** The split is a pure function of the seed and the input
data: two runs with identical seed and identical data produce identical
row splits and identical index sets. -/
theorem C7_split_determinism (s1 s2 : Nat) (X1 X2 : List Sample) (y1 y2 : List ℚ)
    (hs : s1 = s2) (hX : X1 = X2) (hy : y1 = y2) :
    train_test_split s1 X1 y1 = train_test_split s2 X2 y2 ∧
    splitIndices s1 X1.length = splitIndices s2 X2.length := by
  subst hs
  subst hX
  subst hy
  exact ⟨rfl, rfl⟩

/-- Witness for C7 at a concrete seed and dataset. -/
theorem C7_split_determinism_witness :
    train_test_split 42 [s0] [1] = train_test_split 42 [s0] [1] :=
  (C7_split_determinism 42 42 [s0] [s0] [1] [1] rfl rfl rfl).1

/-- **C3.** The training loop has no finiteness guard: run on a
configuration whose optimizer step makes the parameters (and hence the
recorded losses) blow up, it still executes every epoch and records
every loss — by epoch 4 the recorded train loss exceeds `10^6`
(`8589934592`), and the loop keeps going.  Nothing in the loop inspects
the loss value; there is no `TrainingDivergenceError`. -/
theorem C3_no_divergence_guard :
    (trainLoop cfgDiv 5).train_losses.length = 5 ∧
    (trainLoop cfgDiv 5).val_losses.length = 5 ∧
    (10 ^ 6 : ℚ) < (trainLoop cfgDiv 5).train_losses.getD 4 0 := by
  norm_num [trainLoop, epochStep, trainPhase, valPhase, trainFold, cfgDiv, batched,
    batchLossAt, combined_loss, physics_loss, physicsResidual, qmean, Sample.zero,
    List.zipWith]

/-- **C8.** The loss history is a pair of parallel append-only
sequences: after `e` epochs both have length exactly `e`, and for every
`k ≤ e` the history after `k` epochs is an unchanged initial segment of
the history after `e` epochs. -/
theorem C8_loss_history_append_only {P : Type} (cfg : TrainerCfg P) (e : Nat) :
    (trainLoop cfg e).train_losses.length = e ∧
    (trainLoop cfg e).val_losses.length = e ∧
    ∀ k, k ≤ e →
      (∃ t, (trainLoop cfg e).train_losses = (trainLoop cfg k).train_losses ++ t) ∧
      (∃ t, (trainLoop cfg e).val_losses = (trainLoop cfg k).val_losses ++ t) := by
  induction e with
  | zero =>
    refine ⟨rfl, rfl, ?_⟩
    intro k hk
    have hk0 : k = 0 := Nat.le_zero.mp hk
    subst hk0
    exact ⟨⟨[], by simp⟩, ⟨[], by simp⟩⟩
  | succ e ih =>
    obtain ⟨h1, h2, h3⟩ := ih
    have htl := epochStep_train_losses cfg e (trainLoop cfg e)
    have hvl := epochStep_val_losses cfg e (trainLoop cfg e)
    have hstep : trainLoop cfg (e + 1) = epochStep cfg e (trainLoop cfg e) := rfl
    refine ⟨?_, ?_, ?_⟩
    · rw [hstep, htl, List.length_append, h1, List.length_singleton]
    · rw [hstep, hvl, List.length_append, h2, List.length_singleton]
    · intro k hk
      rcases Nat.lt_or_ge k (e + 1) with hlt | hge
      · obtain ⟨⟨t1, ht1⟩, ⟨t2, ht2⟩⟩ := h3 k (by omega)
        constructor
        · exact ⟨t1 ++ [(lossesAlong cfg (trainLoop cfg e).params
              (batched cfg.batchSize (cfg.shuffles e))).sum /
              ((batched cfg.batchSize (cfg.shuffles e)).length : ℚ)],
            by rw [hstep, htl, ht1, List.append_assoc]⟩
        · exact ⟨t2 ++ [(List.map (batchLossAt cfg (paramsAfter cfg (trainLoop cfg e).params
              (batched cfg.batchSize (cfg.shuffles e)))) (batched cfg.batchSize cfg.valData)).sum /
              ((batched cfg.batchSize cfg.valData).length : ℚ)],
            by rw [hstep, hvl, ht2, List.append_assoc]⟩
      · have hke : k = e + 1 := by omega
        subst hke
        exact ⟨⟨[], by simp⟩, ⟨[], by simp⟩⟩

/-- Witness for C8 at the concrete configuration `cfgC`, `e = 2`,
`k = 1`. -/
theorem C8_loss_history_append_only_witness :
    (trainLoop cfgC 2).train_losses.length = 2 ∧
    (∃ t, (trainLoop cfgC 2).train_losses = (trainLoop cfgC 1).train_losses ++ t) :=
  ⟨(C8_loss_history_append_only cfgC 2).1,
   ((C8_loss_history_append_only cfgC 2).2.2 1 (by norm_num)).1⟩

/-- **C9.** Validation is effect-free on the parameters: within every
epoch, the parameters after the validation pass equal the parameters
right after the training phase (and `valPhase` never changes the
parameter component of any state), and the appended validation loss is
the batch-averaged combined loss over the validation batches taken in
their fixed, unshuffled order at those unchanged parameters. -/
theorem C9_validation_no_param_change {P : Type} (cfg : TrainerCfg P) (e : Nat)
    (st : TrainState P) :
    (valPhase cfg (trainPhase cfg e st)).params = (trainPhase cfg e st).params ∧
    (epochStep cfg e st).params = (trainPhase cfg e st).params ∧
    (epochStep cfg e st).val_losses = (trainPhase cfg e st).val_losses ++
      [((batched cfg.batchSize cfg.valData).map
          (batchLossAt cfg (trainPhase cfg e st).params)).sum /
        ((batched cfg.batchSize cfg.valData).length : ℚ)] :=
  ⟨rfl, rfl, rfl⟩

/-- **C10.** The recorded per-epoch train loss is the *unweighted* mean
of the per-batch combined losses: the accumulated sum divided by the
number of batches `⌈N/batch_size⌉`, the shorter final batch counting
like any full batch.  At `cfgC` (sizes 2 and 1, batch losses 1 and 16)
this records `(1+16)/2 = 17/2`, which differs from the per-sample mean
`(1+1+16)/3 = 6`. -/
theorem C10_train_loss_unweighted_batch_mean {P : Type} (cfg : TrainerCfg P) (e : Nat)
    (st : TrainState P) :
    ((trainPhase cfg e st).train_losses = st.train_losses ++
      [(lossesAlong cfg st.params (batched cfg.batchSize (cfg.shuffles e))).sum /
        ((batched cfg.batchSize (cfg.shuffles e)).length : ℚ)]) ∧
    (0 < cfg.batchSize →
      (batched cfg.batchSize (cfg.shuffles e)).length =
        ((cfg.shuffles e).length + cfg.batchSize - 1) / cfg.batchSize) ∧
    (trainPhase cfgC 0 st0).train_losses = [17/2] ∧
    (17/2 : ℚ) ≠ ((1 : ℚ) + 1 + 16) / 3 := by
  refine ⟨?_, fun hbs => batched_length cfg.batchSize hbs (cfg.shuffles e), ?_, by norm_num⟩
  · show st.train_losses ++ [(trainFold cfg (st.params, 0) _).2 / _] = _
    rw [trainFold_snd, zero_add]
  · norm_num [trainPhase, trainFold, st0, cfgC, batched, batchLossAt, combined_loss,
      physics_loss, physicsResidual, qmean, Sample.zero, List.zipWith]

/-- Witness for C10 at `cfgC` (three samples, batch size 2: two
batches). -/
theorem C10_train_loss_unweighted_batch_mean_witness :
    (batched cfgC.batchSize (cfgC.shuffles 0)).length =
      ((cfgC.shuffles 0).length + cfgC.batchSize - 1) / cfgC.batchSize :=
  (C10_train_loss_unweighted_batch_mean cfgC 0 st0).2.1 (by norm_num [cfgC])
